import Mathlib

/-!
# Verification of the in-memory TTL cache (`backend/services/cache_service.py`)

This file gives a shallow embedding of the `CacheService` class and of the
cache-consulting fragment of the weather request handler (`backend/app.py`),
and proves the specified properties about them.

Modelling choices, all read off the Python source:

* Python `time.time()` returns a real-valued timestamp; we model instants as
  rationals (`ℚ`).  Each operation that reads the clock takes the reading(s)
  as explicit parameters.  `CacheService.set` reads the clock **twice** (once
  for `expires_at`, once for `created_at`), so our `set` takes two instants
  `t1 t2`; a monotone clock guarantees `t1 ≤ t2`.
* The store `self._cache` is a Python dict keyed by strings; we model it as an
  association list `List (String × Entry α)` whose keys are pairwise distinct
  (`keysNodup`).  Dict assignment replaces in place (`dictInsert`), `del`
  removes the unique binding (`eraseKey`).
* A cached value may be Python `None`; we model payloads as `Option α`, with
  `none` standing for `None`.  `get` signals a miss with `None` as well, so
  its result type merges the two, exactly as in the source.
* Python `int(x)` truncates toward zero (`pyInt`).
* Operations that mutate the store return the new store; read-only operations
  return the store unchanged, which makes frame properties statable.
-/

namespace CacheModel

/-- One cache entry, mirroring the dict literal built by `CacheService.set`:
`{'value': value, 'expires_at': expires_at, 'created_at': time.time()}`. -/
structure Entry (α : Type) where
  value : Option α
  expires_at : ℚ
  created_at : ℚ
  deriving DecidableEq, Repr

/-- The store `self._cache`, as an association list from keys to entries. -/
abbrev Cache (α : Type) : Type := List (String × Entry α)

/-- Empty store, the state right after `CacheService.__init__`. -/
def emptyCache (α : Type) : Cache α := []

/-- Dict membership / lookup: the entry bound to `key`, if any. -/
def lookupEntry (key : String) : Cache α → Option (Entry α)
  | [] => none
  | (k, e) :: rest => if k = key then some e else lookupEntry key rest

/-- Dict deletion `del self._cache[key]`: drop the binding for `key`. -/
def eraseKey (key : String) : Cache α → Cache α
  | [] => []
  | (k, e) :: rest => if k = key then rest else (k, e) :: eraseKey key rest

/-- Dict assignment `self._cache[key] = entry`: replace in place if the key is
present, otherwise append. -/
def dictInsert (key : String) (e : Entry α) : Cache α → Cache α
  | [] => [(key, e)]
  | (k, e') :: rest =>
      if k = key then (key, e) :: rest else (k, e') :: dictInsert key e rest

/-- Representation invariant of a Python dict: keys are pairwise distinct. -/
def keysNodup (s : Cache α) : Prop := (s.map Prod.fst).Nodup

instance (s : Cache α) : Decidable (keysNodup s) := List.nodupDecidable _

/-- Embedding of `CacheService.get` at clock reading `now`: a miss returns
`none` and leaves the store alone; a hit on an expired entry (strictly
`now > expires_at`) deletes it and returns `none` (passive eviction); a live
hit returns the stored value unchanged. -/
def get (now : ℚ) (key : String) (s : Cache α) : Option α × Cache α :=
  match lookupEntry key s with
  | none => (none, s)
  | some e =>
      if now > e.expires_at then (none, eraseKey key s) else (e.value, s)

/-- Default of the `ttl` parameter of `CacheService.set` (`ttl: int = 900`). -/
def DEFAULT_TTL : ℤ := 900

/-- Embedding of `CacheService.set`.  `t1` is the first clock reading
(`expires_at = time.time() + ttl`), `t2` the second (`'created_at':
time.time()`); the entry for `key` is unconditionally inserted or replaced. -/
def set (t1 t2 : ℚ) (key : String) (value : Option α) (ttl : ℤ) (s : Cache α) :
    Cache α :=
  dictInsert key ⟨value, t1 + ttl, t2⟩ s

/-- `CacheService.set` with the `ttl` argument omitted by the caller. -/
def setDefault (t1 t2 : ℚ) (key : String) (value : Option α) (s : Cache α) :
    Cache α :=
  set t1 t2 key value DEFAULT_TTL s

/-- Embedding of `CacheService.delete`: true and remove if the key is bound in
the dict (no expiry check in the source), false otherwise. -/
def delete (key : String) (s : Cache α) : Bool × Cache α :=
  match lookupEntry key s with
  | some _ => (true, eraseKey key s)
  | none => (false, s)

/-- Embedding of `CacheService.clear`: `self._cache.clear()`. -/
def clear (_s : Cache α) : Cache α := []

/-- Embedding of `CacheService.cleanup_expired`: collect the keys of entries
with `current_time > expires_at`, delete each of them, and return how many
keys were collected. -/
def cleanup_expired (now : ℚ) (s : Cache α) : ℕ × Cache α :=
  let expired_keys :=
    (s.filter (fun p => decide (now > p.2.expires_at))).map Prod.fst
  (expired_keys.length, expired_keys.foldl (fun acc k => eraseKey k acc) s)

/-- The dict returned by `CacheService.get_stats`. -/
structure Stats where
  total_entries : ℕ
  active_entries : ℕ
  expired_entries : ℕ
  cache_keys : List String
  deriving DecidableEq, Repr

/-- Embedding of `CacheService.get_stats`: a snapshot at clock reading `now`;
the store is not mutated. -/
def get_stats (now : ℚ) (s : Cache α) : Stats × Cache α :=
  let total_entries := s.length
  let expired_entries := s.countP (fun p => decide (now > p.2.expires_at))
  (⟨total_entries, total_entries - expired_entries, expired_entries,
    s.map Prod.fst⟩, s)

/-- Embedding of `CacheService.has_key`: `self.get(key) is not None`.  It
calls `get`, so it inherits get's passive eviction. -/
def has_key (now : ℚ) (key : String) (s : Cache α) : Bool × Cache α :=
  ((get now key s).1.isSome, (get now key s).2)

/-- Python `int(x)` on a rational: truncation toward zero. -/
def pyInt (q : ℚ) : ℤ := if 0 ≤ q then ⌊q⌋ else ⌈q⌉

/-- Embedding of `CacheService.get_remaining_ttl`: `none` for an unbound key,
`0` for an expired-but-present entry (no eviction), otherwise
`int(expires_at - current_time)`; the store is never mutated. -/
def get_remaining_ttl (now : ℚ) (key : String) (s : Cache α) :
    Option ℤ × Cache α :=
  (match lookupEntry key s with
   | none => none
   | some e =>
       if now > e.expires_at then some 0
       else some (pyInt (e.expires_at - now)), s)

/-- Embedding of the cache-consulting branch of `get_weather` in
`backend/app.py`: `cached_data = cache_service.get(cache_key)` followed by
`if cached_data:` — the handler serves from cache only when the cached
payload is truthy; Python `None` and any falsy payload take the refetch
path.  `truthy` is the truthiness of the payload type. -/
def handlerServesFromCache (truthy : α → Bool) (cached : Option α) : Bool :=
  match cached with
  | none => false
  | some v => truthy v

/-! ## Helper lemmas about the dict model -/

theorem set_def (t1 t2 : ℚ) (key : String) (v : Option α) (ttl : ℤ)
    (s : Cache α) :
    set t1 t2 key v ttl s = dictInsert key ⟨v, t1 + ttl, t2⟩ s :=
  rfl

theorem mem_keys_dictInsert (key x : String) (e : Entry α) (s : Cache α) :
    x ∈ (dictInsert key e s).map Prod.fst ↔ x = key ∨ x ∈ s.map Prod.fst := by
  induction s with
  | nil => simp [dictInsert]
  | cons p rest ih =>
    obtain ⟨k, e'⟩ := p
    by_cases hk : k = key
    · subst hk
      simp [dictInsert]
    · simp [dictInsert, hk, ih]
      tauto

theorem keysNodup_dictInsert (key : String) (e : Entry α) (s : Cache α)
    (h : keysNodup s) : keysNodup (dictInsert key e s) := by
  induction s with
  | nil => simp [dictInsert, keysNodup]
  | cons p rest ih =>
    obtain ⟨k, e'⟩ := p
    simp only [keysNodup, List.map_cons, List.nodup_cons] at h
    by_cases hk : k = key
    · subst hk
      simpa [dictInsert, keysNodup] using h
    · have h2 := ih h.2
      simp only [dictInsert, hk, if_false, keysNodup, List.map_cons,
        List.nodup_cons]
      refine ⟨fun hmem => ?_, h2⟩
      rcases (mem_keys_dictInsert key k e rest).1 hmem with h3 | h3
      · exact hk h3
      · exact h.1 h3

theorem lookupEntry_dictInsert_self (key : String) (e : Entry α)
    (s : Cache α) : lookupEntry key (dictInsert key e s) = some e := by
  induction s with
  | nil => simp [dictInsert, lookupEntry]
  | cons p rest ih =>
    obtain ⟨k, e'⟩ := p
    by_cases hk : k = key
    · subst hk
      simp [dictInsert, lookupEntry]
    · simp [dictInsert, hk, lookupEntry, ih]

theorem get_dictInsert_live (now : ℚ) (key : String) (e : Entry α)
    (s : Cache α) (h : ¬ now > e.expires_at) :
    get now key (dictInsert key e s) = (e.value, dictInsert key e s) := by
  have hl := lookupEntry_dictInsert_self key e s
  simp [get, hl, h]

theorem has_key_dictInsert_live (now : ℚ) (key : String) (e : Entry α)
    (s : Cache α) (h : ¬ now > e.expires_at) :
    has_key now key (dictInsert key e s)
      = (e.value.isSome, dictInsert key e s) := by
  rw [has_key, get_dictInsert_live now key e s h]

theorem lookupEntry_eq_none_of_not_mem (x : String) (s : Cache α)
    (h : x ∉ s.map Prod.fst) : lookupEntry x s = none := by
  induction s with
  | nil => rfl
  | cons p rest ih =>
    obtain ⟨k, e⟩ := p
    simp only [List.map_cons, List.mem_cons] at h
    push_neg at h
    have hk : k ≠ x := fun hkx => h.1 hkx.symm
    simp [lookupEntry, hk, ih h.2]

theorem lookupEntry_isSome_iff_mem (x : String) (s : Cache α) :
    (lookupEntry x s).isSome ↔ x ∈ s.map Prod.fst := by
  induction s with
  | nil => simp [lookupEntry]
  | cons p rest ih =>
    obtain ⟨k, e⟩ := p
    by_cases hk : k = x
    · subst hk
      simp [lookupEntry]
    · have hk' : x ≠ k := fun h => hk h.symm
      simp [lookupEntry, hk, hk', ih]

theorem eraseKey_eq_filter (key : String) (s : Cache α) (h : keysNodup s) :
    eraseKey key s = s.filter (fun p => decide (p.1 ≠ key)) := by
  induction s with
  | nil => rfl
  | cons p rest ih =>
    obtain ⟨k, e⟩ := p
    simp only [keysNodup, List.map_cons, List.nodup_cons] at h
    by_cases hk : k = key
    · subst hk
      have hall : ∀ p ∈ rest, (decide ((p : String × Entry α).1 ≠ k)) = true := by
        intro p hp
        simp only [decide_eq_true_eq]
        intro hpk
        exact h.1 (hpk ▸ List.mem_map_of_mem Prod.fst hp)
      have hall2 : ∀ p ∈ rest, (!decide ((p : String × Entry α).1 = k)) = true := by
        intro p hp
        simpa using hall p hp
      have hrest : rest.filter (fun p => !decide (p.1 = k)) = rest :=
        List.filter_eq_self.2 hall2
      simp [eraseKey, List.filter_cons, hrest]
    · simp [eraseKey, hk, List.filter_cons, ih h.2]

theorem keysNodup_filter (q : String × Entry α → Bool) (s : Cache α)
    (h : keysNodup s) : keysNodup (s.filter q) :=
  ((List.filter_sublist s).map Prod.fst).nodup h

theorem keysNodup_eraseKey (key : String) (s : Cache α) (h : keysNodup s) :
    keysNodup (eraseKey key s) := by
  rw [eraseKey_eq_filter key s h]
  exact keysNodup_filter _ s h

theorem lookupEntry_eraseKey_self (key : String) (s : Cache α)
    (h : keysNodup s) : lookupEntry key (eraseKey key s) = none := by
  rw [eraseKey_eq_filter key s h]
  apply lookupEntry_eq_none_of_not_mem
  intro hmem
  rcases List.mem_map.1 hmem with ⟨p, hp, hfst⟩
  rcases List.mem_filter.1 hp with ⟨_, hq⟩
  rw [hfst] at hq
  exact (of_decide_eq_true hq) rfl

theorem eq_fst_of_keysNodup (s : Cache α) (h : keysNodup s)
    (p q : String × Entry α) (hp : p ∈ s) (hq : q ∈ s) (hfst : p.1 = q.1) :
    p = q := by
  induction s with
  | nil => cases hp
  | cons a rest ih =>
    simp only [keysNodup, List.map_cons, List.nodup_cons] at h
    rcases List.mem_cons.1 hp with hp1 | hp1 <;>
      rcases List.mem_cons.1 hq with hq1 | hq1
    · exact hp1.trans hq1.symm
    · exact absurd (hfst ▸ List.mem_map_of_mem Prod.fst hq1)
        (hp1 ▸ h.1)
    · exact absurd (hfst ▸ List.mem_map_of_mem Prod.fst hp1)
        (hq1 ▸ h.1)
    · exact ih h.2 hp1 hq1

theorem lookupEntry_mem (key : String) (s : Cache α) (e : Entry α)
    (h : lookupEntry key s = some e) : (key, e) ∈ s := by
  induction s with
  | nil => cases h
  | cons p rest ih =>
    obtain ⟨k, e'⟩ := p
    by_cases hk : k = key
    · subst hk
      simp only [lookupEntry] at h
      rw [if_pos trivial] at h
      obtain rfl : e' = e := by injection h
      exact List.mem_cons_self _ _
    · simp only [lookupEntry, if_neg hk] at h
      exact List.mem_cons_of_mem _ (ih h)

theorem lookupEntry_filter_of_pos (q : String × Entry α → Bool)
    (key : String) (s : Cache α) (e : Entry α) (h : keysNodup s)
    (hl : lookupEntry key s = some e) (hq : q (key, e) = true) :
    lookupEntry key (s.filter q) = some e := by
  induction s with
  | nil => cases hl
  | cons p rest ih =>
    obtain ⟨k, e'⟩ := p
    simp only [keysNodup, List.map_cons, List.nodup_cons] at h
    by_cases hk : k = key
    · subst hk
      simp only [lookupEntry] at hl
      rw [if_pos trivial] at hl
      obtain rfl : e' = e := by injection hl
      simp [List.filter_cons, hq, lookupEntry]
    · simp only [lookupEntry, if_neg hk] at hl
      by_cases hq' : q (k, e') = true
      · simp [List.filter_cons, hq', lookupEntry, hk, ih h.2 hl]
      · simp only [Bool.not_eq_true] at hq'
        simp [List.filter_cons, hq', ih h.2 hl]

theorem lookupEntry_filter_of_neg (q : String × Entry α → Bool)
    (key : String) (s : Cache α) (e : Entry α) (h : keysNodup s)
    (hl : lookupEntry key s = some e) (hq : q (key, e) = false) :
    lookupEntry key (s.filter q) = none := by
  apply lookupEntry_eq_none_of_not_mem
  intro hmem
  rcases List.mem_map.1 hmem with ⟨p, hp, hfst⟩
  rcases List.mem_filter.1 hp with ⟨hps, hpq⟩
  have : p = (key, e) :=
    eq_fst_of_keysNodup s h p (key, e) hps (lookupEntry_mem key s e hl) hfst
  rw [this, hq] at hpq
  cases hpq

theorem foldl_eraseKey_eq_filter (ks : List String) (s : Cache α)
    (h : keysNodup s) :
    ks.foldl (fun acc k => eraseKey k acc) s
      = s.filter (fun p => decide (p.1 ∉ ks)) := by
  induction ks generalizing s with
  | nil =>
    rw [List.foldl_nil]
    refine (List.filter_eq_self.2 ?_).symm
    intro p _
    simp
  | cons k ks ih =>
    rw [List.foldl_cons, ih (eraseKey k s) (keysNodup_eraseKey k s h),
      eraseKey_eq_filter k s h, List.filter_filter]
    apply List.filter_congr
    intro p _
    by_cases h1 : p.1 = k <;> by_cases h2 : p.1 ∈ ks <;> simp [h1, h2]

theorem cleanup_expired_state (now : ℚ) (s : Cache α) (h : keysNodup s) :
    (cleanup_expired now s).2
      = s.filter (fun p => !decide (now > p.2.expires_at)) := by
  show ((s.filter (fun p => decide (now > p.2.expires_at))).map
      Prod.fst).foldl (fun acc k => eraseKey k acc) s = _
  rw [foldl_eraseKey_eq_filter _ s h]
  apply List.filter_congr
  intro p hp
  by_cases hexp : now > p.2.expires_at
  · have hmem : p.1 ∈ (s.filter
        (fun p => decide (now > p.2.expires_at))).map Prod.fst :=
      List.mem_map_of_mem _ (List.mem_filter.2 ⟨hp, by simp [hexp]⟩)
    simp [hmem, hexp]
  · have hnot : p.1 ∉ (s.filter
        (fun p => decide (now > p.2.expires_at))).map Prod.fst := by
      intro hmem
      rcases List.mem_map.1 hmem with ⟨q, hq, hfst⟩
      rcases List.mem_filter.1 hq with ⟨hqs, hqe⟩
      have hqp : q = p := eq_fst_of_keysNodup s h q p hqs hp hfst
      rw [hqp] at hqe
      simp [hexp] at hqe
    simp [hnot, hexp]

theorem cleanup_expired_count (now : ℚ) (s : Cache α) :
    (cleanup_expired now s).1
      = s.countP (fun p => decide (now > p.2.expires_at)) := by
  show ((s.filter (fun p => decide (now > p.2.expires_at))).map
      Prod.fst).length = _
  rw [List.length_map, ← List.countP_eq_length_filter]

/-! ## Claim theorems -/

/-- C1: for every key, `get` returns absent when no entry is stored for the
key or when the current time strictly exceeds the entry's `expires_at` (at
`now = expires_at` the value is still returned, the predicate being strictly
`now > expires_at`); when absent is returned because of expiry, that entry is
removed from the store as a side effect of the call (passive eviction);
otherwise `get` returns the stored value unchanged; on a never-set key
`has_key` is false as well. -/
theorem C1_get_expiry_passive_eviction (α : Type) (now : ℚ) (key : String)
    (s : Cache α) :
    (lookupEntry key s = none →
      get now key s = (none, s) ∧ has_key now key s = (false, s)) ∧
    (∀ e : Entry α, lookupEntry key s = some e →
      (now > e.expires_at →
        get now key s = (none, eraseKey key s) ∧
          (keysNodup s → lookupEntry key (get now key s).2 = none)) ∧
      (now ≤ e.expires_at → get now key s = (e.value, s))) := by
  constructor
  · intro hnone
    constructor
    · simp [get, hnone]
    · simp [has_key, get, hnone]
  · intro e he
    constructor
    · intro hexp
      constructor
      · simp [get, he, hexp]
      · intro hnod
        simp [get, he, hexp, lookupEntry_eraseKey_self key s hnod]
    · intro hle
      have hnot : ¬ now > e.expires_at := not_lt.2 hle
      simp [get, he, hnot]

/-- Witness for C1: on the store holding `"k" ↦ ⟨some 1, 3, 0⟩`, a read at
time 5 evicts and returns absent, while a read exactly at the expiry instant
3 still returns the value. -/
theorem C1_get_expiry_passive_eviction_witness :
    get (5 : ℚ) "k" [("k", (⟨some 1, 3, 0⟩ : Entry ℕ))]
        = (none, eraseKey "k" [("k", (⟨some 1, 3, 0⟩ : Entry ℕ))]) ∧
      get (3 : ℚ) "k" [("k", (⟨some 1, 3, 0⟩ : Entry ℕ))]
        = (some 1, [("k", (⟨some 1, 3, 0⟩ : Entry ℕ))]) :=
  ⟨(((C1_get_expiry_passive_eviction ℕ 5 "k"
      [("k", ⟨some 1, 3, 0⟩)]).2 ⟨some 1, 3, 0⟩ (by decide)).1
        (by norm_num)).1,
   ((C1_get_expiry_passive_eviction ℕ 3 "k"
      [("k", ⟨some 1, 3, 0⟩)]).2 ⟨some 1, 3, 0⟩ (by decide)).2 (by norm_num)⟩

/-- C2 as stated is false: `CacheService.delete` tests raw dict membership
and never consults the clock, so it returns true on an entry whose
`expires_at` has already passed (here: an entry expiring at 1, observed at
time 10), where the claim requires false. -/
theorem C2_counterexample :
    lookupEntry "k" (set 0 0 "k" (some 0) 1 (emptyCache ℕ))
        = some ⟨some 0, 1, 0⟩ ∧
      (10 : ℚ) > (1 : ℚ) ∧
      (delete "k" (set 0 0 "k" (some 0) 1 (emptyCache ℕ))).1 = true := by
  refine ⟨by norm_num [set_def, dictInsert, lookupEntry, emptyCache],
    by norm_num,
    by norm_num [delete, set_def, dictInsert, lookupEntry, emptyCache]⟩

/-- C2 amended: `delete key` returns true iff an entry — live or
expired-but-not-yet-swept — is stored for the key, in which case the entry is
removed; it returns false only when no entry is stored (never set, already
deleted, or already evicted); consequently a second `delete` of the same key
returns false. -/
theorem C2_amended_delete_iff_stored (α : Type) (key : String) (s : Cache α) :
    ((delete key s).1 = true ↔ (lookupEntry key s).isSome = true) ∧
    ((delete key s).1 = true → (delete key s).2 = eraseKey key s) ∧
    (keysNodup s → (delete key (delete key s).2).1 = false) := by
  rcases hl : lookupEntry key s with _ | e
  · refine ⟨by simp [delete, hl], by simp [delete, hl], ?_⟩
    intro _
    simp [delete, hl]
  · refine ⟨by simp [delete, hl], by simp [delete, hl], ?_⟩
    intro hnod
    have h2 : (delete key s).2 = eraseKey key s := by simp [delete, hl]
    rw [h2]
    simp [delete, lookupEntry_eraseKey_self key s hnod]

/-- Witness for C2 (amended): deleting `"k"` from a one-entry store succeeds
once and fails on the second call. -/
theorem C2_amended_delete_iff_stored_witness :
    (delete "k" [("k", (⟨some 0, 1, 0⟩ : Entry ℕ))]).1 = true ∧
    (delete "k" (delete "k" [("k", (⟨some 0, 1, 0⟩ : Entry ℕ))]).2).1
        = false :=
  ⟨(C2_amended_delete_iff_stored ℕ "k"
      [("k", ⟨some 0, 1, 0⟩)]).1.2 (by decide),
   (C2_amended_delete_iff_stored ℕ "k"
      [("k", ⟨some 0, 1, 0⟩)]).2.2 (by decide)⟩

/-- C3 as stated is false: `CacheService.set` reads the clock twice —
`expires_at = time.time() + ttl` first, `'created_at': time.time()` second —
so when the two readings differ (first read 0, second read 1, ttl 10) the
stored entry has `expires_at = 10` but `created_at + ttl = 11`. -/
theorem C3_counterexample :
    lookupEntry "k" (set 0 1 "k" (some 0) 10 (emptyCache ℕ))
        = some ⟨some 0, 10, 1⟩ ∧
      ((⟨some 0, 10, 1⟩ : Entry ℕ).expires_at
          ≠ (⟨some 0, 10, 1⟩ : Entry ℕ).created_at + (10 : ℤ)) := by
  refine ⟨by norm_num [set_def, dictInsert, lookupEntry, emptyCache],
    by norm_num⟩

/-- C3 amended: the entry stored by `set` has `expires_at` equal to the
**first** clock reading of the call plus `ttl`; `created_at` is the second,
no-earlier reading, so under a monotone clock `expires_at ≤ created_at + ttl`,
with equality exactly when the two readings coincide (in particular whenever
the clock does not advance inside the call). -/
theorem C3_amended_expires_from_first_read (α : Type) (t1 t2 : ℚ)
    (key : String) (v : Option α) (ttl : ℤ) (s : Cache α) :
    ∀ e : Entry α, lookupEntry key (set t1 t2 key v ttl s) = some e →
      e.expires_at = t1 + ttl ∧ e.created_at = t2 ∧
      (t1 ≤ t2 → e.expires_at ≤ e.created_at + ttl) ∧
      (t1 = t2 → e.expires_at = e.created_at + ttl) := by
  intro e he
  rw [set, lookupEntry_dictInsert_self] at he
  obtain rfl : (⟨v, t1 + ttl, t2⟩ : Entry α) = e := by injection he
  refine ⟨rfl, rfl, fun h => ?_, fun h => ?_⟩
  · simp only
    linarith
  · simp only [h]

/-- Witness for C3 (amended): with both clock readings at 4 and ttl 5 the
stored entry satisfies `expires_at = created_at + ttl` on the nose. -/
theorem C3_amended_expires_from_first_read_witness :
    (lookupEntry "k" (set 4 4 "k" (some 0) 5 (emptyCache ℕ))
        = some ⟨some 0, 9, 4⟩) ∧
    (⟨some 0, 9, 4⟩ : Entry ℕ).expires_at
        = (⟨some 0, 9, 4⟩ : Entry ℕ).created_at + (5 : ℤ) :=
  ⟨by norm_num [set_def, dictInsert, lookupEntry, emptyCache],
   (C3_amended_expires_from_first_read ℕ 4 4 "k" (some 0) 5
      (emptyCache ℕ) ⟨some 0, 9, 4⟩
      (by norm_num [set_def, dictInsert, lookupEntry, emptyCache])).2.2.2
      rfl⟩

/-- C4 as stated is false on the value `None`: right after
`set(key, None, 900)` (ttl 900 > 0, no time passing), `has_key key` is false,
because `get` signals absence with `None` and the stored value **is** `None`;
the claim requires `has_key` to be true for every value. -/
theorem C4_counterexample :
    (0 : ℤ) < 900 ∧
    (has_key 0 "k" (set 0 0 "k" (none : Option ℕ) 900 (emptyCache ℕ))).1
        = false := by
  refine ⟨by norm_num, ?_⟩
  have hno : ¬ (0 : ℚ)
      > (⟨none, 0 + ((900 : ℤ) : ℚ), 0⟩ : Entry ℕ).expires_at := by
    show ¬ (0 : ℚ) > 0 + ((900 : ℤ) : ℚ)
    norm_num
  rw [set_def, has_key_dictInsert_live 0 "k"
    (⟨none, 0 + ((900 : ℤ) : ℚ), 0⟩ : Entry ℕ) (emptyCache ℕ) hno]
  rfl

/-- C4 amended: for all `(key, value, ttl)` with `ttl > 0`, immediately after
`set key value ttl` (both clock readings of `set` and the reading of the
subsequent call equal to `now`), `get key` returns exactly the stored value,
and `has_key key` is true whenever that value is not `None` (for the value
`None`, `get` still returns it — `None` — but `has_key` is false); when the
caller omits `ttl`, `set` applies the default TTL of 900 seconds. -/
theorem C4_amended_set_then_get (α : Type) (now : ℚ) (key : String)
    (value : Option α) (ttl : ℤ) (s : Cache α) (h : 0 < ttl) :
    (get now key (set now now key value ttl s)).1 = value ∧
    (has_key now key (set now now key value ttl s)).1 = value.isSome ∧
    (∀ t1 t2 : ℚ, setDefault t1 t2 key value s = set t1 t2 key value 900 s) ∧
    DEFAULT_TTL = 900 := by
  have hl := lookupEntry_dictInsert_self key
    (⟨value, now + (ttl : ℚ), now⟩ : Entry α) s
  have hno : ¬ now > now + (ttl : ℚ) := by
    have h0 : (0 : ℚ) < (ttl : ℚ) := by exact_mod_cast h
    linarith
  refine ⟨?_, ?_, fun t1 t2 => rfl, rfl⟩
  · simp [get, set_def, hl, hno]
  · simp [has_key, get, set_def, hl, hno]

/-- Witness for C4 (amended): storing `some 2` under `"k"` with ttl 7 at time
0 makes `get` return `some 2` and `has_key` true at time 0. -/
theorem C4_amended_set_then_get_witness :
    (0 : ℤ) < 7 ∧
    (get 0 "k" (set 0 0 "k" (some 2) 7 (emptyCache ℕ))).1 = some 2 ∧
    (has_key 0 "k" (set 0 0 "k" (some 2) 7 (emptyCache ℕ))).1 = true :=
  ⟨by norm_num,
   (C4_amended_set_then_get ℕ 0 "k" (some 2) 7 (emptyCache ℕ)
      (by norm_num)).1,
   (C4_amended_set_then_get ℕ 0 "k" (some 2) 7 (emptyCache ℕ)
      (by norm_num)).2.1⟩

/-- C5: a store with pairwise-distinct keys keeps that property across `set`
(at most one entry per key); `set` on an existing key fully replaces the
prior entry — value, `expires_at` and `created_at` are all recomputed with
the new clock readings and ttl, with no merging; in particular, setting a key
with ttl 1 and immediately re-setting it with ttl 900 yields an entry whose
value is still returned by `get` past 1 second after the insertion. -/
theorem C5_set_fully_replaces (α : Type) (t1 t2 : ℚ) (key : String)
    (v : Option α) (ttl : ℤ) (s : Cache α) (h : keysNodup s) :
    keysNodup (set t1 t2 key v ttl s) ∧
    (∀ t1' t2' : ℚ, ∀ v' : Option α, ∀ ttl' : ℤ,
      lookupEntry key (set t1' t2' key v' ttl' (set t1 t2 key v ttl s))
        = some ⟨v', t1' + ttl', t2'⟩) ∧
    (∀ v1 v2 : Option α, ∀ now : ℚ, t1 + 1 < now → now ≤ t1 + 900 →
      (get now key (set t1 t1 key v2 900 (set t1 t1 key v1 1 s))).1 = v2) := by
  refine ⟨keysNodup_dictInsert key _ s h, ?_, ?_⟩
  · intro t1' t2' v' ttl'
    exact lookupEntry_dictInsert_self key _ _
  · intro v1 v2 now h1 h2
    have hno : ¬ now
        > (⟨v2, t1 + ((900 : ℤ) : ℚ), t1⟩ : Entry α).expires_at := by
      show ¬ now > t1 + ((900 : ℤ) : ℚ)
      push_cast
      linarith
    rw [set_def, set_def, get_dictInsert_live now key
      (⟨v2, t1 + ((900 : ℤ) : ℚ), t1⟩ : Entry α)
      (dictInsert key (⟨v1, t1 + ((1 : ℤ) : ℚ), t1⟩ : Entry α) s) hno]

/-- Witness for C5: on the empty store, after `set "k" (some 1) 1` and an
immediate `set "k" (some 2) 900` (clock readings all 0), `get` at time 2 —
past the first ttl of 1 second — still returns `some 2`. -/
theorem C5_set_fully_replaces_witness :
    keysNodup (set 0 0 "k" (some 1) 5 (emptyCache ℕ)) ∧
    (get 2 "k" (set 0 0 "k" (some 2) 900
        (set 0 0 "k" (some 1) 1 (emptyCache ℕ)))).1 = some 2 :=
  ⟨(C5_set_fully_replaces ℕ 0 0 "k" (some 1) 5 (emptyCache ℕ)
      (by decide)).1,
   (C5_set_fully_replaces ℕ 0 0 "k" (some 1) 1 (emptyCache ℕ)
      (by decide)).2.2 (some 1) (some 2) 2 (by norm_num) (by norm_num)⟩

/-- C6: on a store with pairwise-distinct keys, `cleanup_expired` removes
exactly the entries with `now > expires_at` at the scan's clock reading and
no others, returns exactly the number of entries removed, and every entry
with a future (or current) `expires_at` remains stored and retrievable by
`get` afterward. -/
theorem C6_cleanup_removes_exactly_expired (α : Type) (now : ℚ)
    (s : Cache α) (h : keysNodup s) :
    (cleanup_expired now s).2
        = s.filter (fun p => !decide (now > p.2.expires_at)) ∧
    (cleanup_expired now s).1
        = s.countP (fun p => decide (now > p.2.expires_at)) ∧
    (∀ key : String, ∀ e : Entry α, lookupEntry key s = some e →
      ¬ now > e.expires_at →
      get now key (cleanup_expired now s).2
        = (e.value, (cleanup_expired now s).2)) ∧
    (∀ key : String, ∀ e : Entry α, lookupEntry key s = some e →
      now > e.expires_at →
      lookupEntry key (cleanup_expired now s).2 = none) := by
  refine ⟨cleanup_expired_state now s h, cleanup_expired_count now s, ?_, ?_⟩
  · intro key e hl hlive
    have h2 : lookupEntry key (cleanup_expired now s).2 = some e := by
      rw [cleanup_expired_state now s h]
      exact lookupEntry_filter_of_pos _ key s e h hl (by simp [hlive])
    simp [get, h2, hlive]
  · intro key e hl hexp
    rw [cleanup_expired_state now s h]
    exact lookupEntry_filter_of_neg _ key s e h hl (by simp [hexp])

/-- Witness for C6: sweeping the two-entry store `"a" ↦` (expired at 1),
`"b" ↦` (expires at 10) at time 5 reports one removal and leaves `"b"`
retrievable. -/
theorem C6_cleanup_removes_exactly_expired_witness :
    (cleanup_expired 5 [("a", (⟨some 1, 1, 0⟩ : Entry ℕ)),
        ("b", ⟨some 2, 10, 0⟩)]).1 = 1 ∧
    (get 5 "b" (cleanup_expired 5 [("a", (⟨some 1, 1, 0⟩ : Entry ℕ)),
        ("b", ⟨some 2, 10, 0⟩)]).2).1 = some 2 ∧
    lookupEntry "a" (cleanup_expired 5 [("a", (⟨some 1, 1, 0⟩ : Entry ℕ)),
        ("b", ⟨some 2, 10, 0⟩)]).2 = none := by
  refine ⟨?_, ?_, ?_⟩
  · exact (C6_cleanup_removes_exactly_expired ℕ 5 _ (by decide)).2.1.trans
      (by decide)
  · exact congrArg Prod.fst
      ((C6_cleanup_removes_exactly_expired ℕ 5 _ (by decide)).2.2.1 "b"
        ⟨some 2, 10, 0⟩ (by decide) (by norm_num))
  · exact (C6_cleanup_removes_exactly_expired ℕ 5 _ (by decide)).2.2.2 "a"
      ⟨some 1, 1, 0⟩ (by decide) (by norm_num)

/-- C7: `get_remaining_ttl key` never mutates the store (no passive
eviction); it returns absent when no entry is stored for the key; on a stored
entry it returns `max(0, expires_at - now)` rounded down to whole seconds —
`some 0` (not absent) for an expired-but-unswept entry, and for a live entry
the nonnegative whole-second remainder; in particular, for an entry set with
ttl 60 and read less than one second later, the result lies in `[59, 60]`. -/
theorem C7_get_remaining_ttl_spec (α : Type) (now : ℚ) (key : String)
    (s : Cache α) :
    (get_remaining_ttl now key s).2 = s ∧
    (lookupEntry key s = none → (get_remaining_ttl now key s).1 = none) ∧
    (∀ e : Entry α, lookupEntry key s = some e →
      (now > e.expires_at → (get_remaining_ttl now key s).1 = some 0) ∧
      (now ≤ e.expires_at →
        (get_remaining_ttl now key s).1 = some ⌊e.expires_at - now⌋ ∧
          0 ≤ ⌊e.expires_at - now⌋)) ∧
    (∀ v : Option α, ∀ d : ℚ, 0 ≤ d → d < 1 →
      ∃ r : ℤ, (get_remaining_ttl (now + d) key
          (set now now key v 60 s)).1 = some r ∧ 59 ≤ r ∧ r ≤ 60) := by
  refine ⟨rfl, ?_, ?_, ?_⟩
  · intro hnone
    simp [get_remaining_ttl, hnone]
  · intro e he
    constructor
    · intro hexp
      simp [get_remaining_ttl, he, hexp]
    · intro hle
      have hnot : ¬ now > e.expires_at := not_lt.2 hle
      have h0 : (0 : ℚ) ≤ e.expires_at - now := by linarith
      refine ⟨?_, Int.floor_nonneg.2 h0⟩
      simp [get_remaining_ttl, he, hnot, pyInt, h0]
  · intro v d hd0 hd1
    have hl := lookupEntry_dictInsert_self key
      (⟨v, now + ((60 : ℤ) : ℚ), now⟩ : Entry α) s
    have hne : ¬ now + d > now + ((60 : ℤ) : ℚ) := by push_cast; linarith
    have harg : now + ((60 : ℤ) : ℚ) - (now + d) = (60 : ℚ) - d := by
      push_cast
      ring
    have h0 : (0 : ℚ) ≤ (60 : ℚ) - d := by linarith
    refine ⟨⌊(60 : ℚ) - d⌋, ?_, ?_, ?_⟩
    · rw [set_def]
      simp only [get_remaining_ttl, hl, hne, if_neg hne]
      rw [harg, pyInt, if_pos h0]
      simp
    · exact Int.le_floor.2 (by push_cast; linarith)
    · have h1 : ((60 : ℚ) - d) ≤ ((60 : ℤ) : ℚ) := by push_cast; linarith
      have h2 := Int.floor_mono h1
      simpa using h2

/-- Witness for C7: on the store `"k" ↦ ⟨some 1, 10, 0⟩`, reading the
remaining ttl at time 20 (expired, unswept) yields `some 0` and leaves the
store untouched; at time 4 it yields `some 6`; and on an entry set with ttl
60 read at the same instant it yields a value in `[59, 60]`. -/
theorem C7_get_remaining_ttl_spec_witness :
    (get_remaining_ttl 20 "k" [("k", (⟨some 1, 10, 0⟩ : Entry ℕ))]).1
        = some 0 ∧
    (get_remaining_ttl 20 "k" [("k", (⟨some 1, 10, 0⟩ : Entry ℕ))]).2
        = [("k", (⟨some 1, 10, 0⟩ : Entry ℕ))] ∧
    (get_remaining_ttl 4 "k" [("k", (⟨some 1, 10, 0⟩ : Entry ℕ))]).1
        = some 6 ∧
    ∃ r : ℤ, (get_remaining_ttl (0 + 0) "k"
        (set 0 0 "k" (some 1) 60 (emptyCache ℕ))).1 = some r ∧
      59 ≤ r ∧ r ≤ 60 := by
  refine ⟨?_, ?_, ?_, ?_⟩
  · exact ((C7_get_remaining_ttl_spec ℕ 20 "k"
      [("k", ⟨some 1, 10, 0⟩)]).2.2.1 ⟨some 1, 10, 0⟩ (by decide)).1
      (by norm_num)
  · exact (C7_get_remaining_ttl_spec ℕ 20 "k"
      [("k", ⟨some 1, 10, 0⟩)]).1
  · have h := ((C7_get_remaining_ttl_spec ℕ 4 "k"
      [("k", ⟨some 1, 10, 0⟩)]).2.2.1 ⟨some 1, 10, 0⟩ (by decide)).2
      (by norm_num)
    rw [h.1]
    norm_num
  · exact (C7_get_remaining_ttl_spec ℕ 0 "k" (emptyCache ℕ)).2.2.2
      (some 1) 0 le_rfl (by norm_num)

/-- C8: `get_stats` leaves the store completely unchanged (no passive
eviction, no removal) and returns a snapshot in which `total_entries` is the
raw count of all stored entries (expired-but-unswept included),
`expired_entries` counts the entries with `now > expires_at` at snapshot
time, `active_entries = total_entries - expired_entries` (the subtraction
never truncating, as `expired_entries ≤ total_entries`), and `cache_keys`
lists every stored key regardless of expiry state. -/
theorem C8_get_stats_pure_snapshot (α : Type) (now : ℚ) (s : Cache α) :
    (get_stats now s).2 = s ∧
    (get_stats now s).1.total_entries = s.length ∧
    (get_stats now s).1.expired_entries
        = s.countP (fun p => decide (now > p.2.expires_at)) ∧
    (get_stats now s).1.expired_entries ≤ (get_stats now s).1.total_entries ∧
    (get_stats now s).1.active_entries
        = (get_stats now s).1.total_entries
            - (get_stats now s).1.expired_entries ∧
    (get_stats now s).1.cache_keys = s.map Prod.fst := by
  refine ⟨rfl, rfl, rfl, ?_, rfl, rfl⟩
  exact List.countP_le_length _

/-- C9: every cache operation of the embedding is a total function whose only
outcomes are its documented return values — `get` either reports absence
with `none` or returns a stored entry's value, never an error; and after
`clear()` the store is empty: its stats report zero entries and `get`
returns absent for every key. -/
theorem C9_totality_and_clear (α : Type) (now : ℚ) (key : String)
    (s : Cache α) :
    clear s = emptyCache α ∧
    (get_stats now (clear s)).1.total_entries = 0 ∧
    (get_stats now (clear s)).1.cache_keys = [] ∧
    (get now key (clear s)).1 = none ∧
    ((get now key s).1 = none ∨
      ∃ e : Entry α, lookupEntry key s = some e ∧
        (get now key s).1 = e.value) ∧
    ((delete key s).1 = true ∨ (delete key s).1 = false) := by
  refine ⟨rfl, rfl, rfl, rfl, ?_, ?_⟩
  · rcases hl : lookupEntry key s with _ | e
    · left
      simp [get, hl]
    · by_cases hexp : now > e.expires_at
      · left
        simp [get, hl, hexp]
      · right
        refine ⟨e, rfl, ?_⟩
        simp [get, hl, hexp]
  · cases h : (delete key s).1
    · right
      rfl
    · left
      rfl

/-- C10 (implicit): a cached value of `None` is indistinguishable from a
miss at the public interface — right after `set key None ttl` with
`ttl > 0`, `get key` returns the same absent marker (`none`) as on the
never-set key of an empty store, `has_key key` is false (it tests
`get(key) is not None`), the request handler's `if cached_data:` test takes
the refetch path, and that handler test likewise refetches on any falsy
payload. -/
theorem C10_none_value_looks_like_miss (α : Type) (now : ℚ) (key : String)
    (ttl : ℤ) (s : Cache α) (truthy : α → Bool) (h : 0 < ttl) :
    (get now key (set now now key none ttl s)).1 = none ∧
    (get now key (emptyCache α)).1 = none ∧
    (has_key now key (set now now key none ttl s)).1 = false ∧
    handlerServesFromCache truthy
        (get now key (set now now key none ttl s)).1 = false ∧
    (∀ v : α, truthy v = false →
      handlerServesFromCache truthy (some v) = false) := by
  have hno : ¬ now > (⟨none, now + (ttl : ℚ), now⟩ : Entry α).expires_at := by
    show ¬ now > now + (ttl : ℚ)
    have h0 : (0 : ℚ) < (ttl : ℚ) := by exact_mod_cast h
    linarith
  have hget : (get now key (set now now key none ttl s)).1 = none := by
    rw [set_def, get_dictInsert_live now key
      (⟨none, now + (ttl : ℚ), now⟩ : Entry α) s hno]
  refine ⟨hget, rfl, ?_, ?_, ?_⟩
  · rw [set_def, has_key_dictInsert_live now key
      (⟨none, now + (ttl : ℚ), now⟩ : Entry α) s hno]
    rfl
  · rw [hget]
    rfl
  · intro v hv
    simp [handlerServesFromCache, hv]

/-- Witness for C10: storing Python `None` under `"k"` with ttl 3 at time 0
makes `get` return `none`, `has_key` false, and the handler refetch. -/
theorem C10_none_value_looks_like_miss_witness :
    (get 0 "k" (set 0 0 "k" (none : Option ℕ) 3 (emptyCache ℕ))).1 = none ∧
    (has_key 0 "k" (set 0 0 "k" (none : Option ℕ) 3 (emptyCache ℕ))).1
        = false ∧
    handlerServesFromCache (fun n : ℕ => decide (n ≠ 0))
        (get 0 "k" (set 0 0 "k" (none : Option ℕ) 3 (emptyCache ℕ))).1
        = false :=
  ⟨(C10_none_value_looks_like_miss ℕ 0 "k" 3 (emptyCache ℕ)
      (fun n => decide (n ≠ 0)) (by norm_num)).1,
   (C10_none_value_looks_like_miss ℕ 0 "k" 3 (emptyCache ℕ)
      (fun n => decide (n ≠ 0)) (by norm_num)).2.2.1,
   (C10_none_value_looks_like_miss ℕ 0 "k" 3 (emptyCache ℕ)
      (fun n => decide (n ≠ 0)) (by norm_num)).2.2.2.1⟩

end CacheModel
